import Mathlib

/-!
Verification development for the caching / rate-limiting / background-worker
core of the news-aggregation backend.

The definitions below are a shallow embedding of the JavaScript source:

* `AdvancedCache` — the stale-while-revalidate multi-tier cache
  (`advancedCache.js`: `getWithSWR`, `refreshCache`, `backgroundRefresh`,
  the `node-cache` L1 tier and the `advancedCache.cleanup` sweep);
* `GroqRateLimiter` — the token-bucket rate limiter with its priority queue
  (`groqRateLimiter.js`: `executeRequest`, `executeImmediate`, `queueRequest`,
  `processQueue`, `removeFromQueue`, the refill timer);
* `CommentaryWorker` — the background commentary queue
  (`commentaryWorker.js`: `processQueue` failure handling).

Timestamps are milliseconds as `Nat` (JavaScript `Date.now()`), TTLs are
seconds as in the source.  JavaScript values cached by the system are
modelled by the inductive `JsVal`; JSON round-tripping through the remote
tier is modelled as the identity on the stored entry.
-/

namespace TestBackend

/-- A JavaScript value as stored in the cache (enough structure to express
`Array.isArray(x) && x.length === 0`). -/
inductive JsVal where
  | arr : List JsVal → JsVal
  | str : String → JsVal
  | num : Int → JsVal
  | boolean : Bool → JsVal
  | null : JsVal

/-- Mirrors `Array.isArray(freshData) && freshData.length === 0` from
`refreshCache`. -/
def isEmptyArray : JsVal → Bool
  | .arr [] => true
  | _ => false

/-- Whether the first character list starts the second. -/
def charsStartWith : List Char → List Char → Bool
  | [], _ => true
  | _ :: _, [] => false
  | a :: as, b :: bs => a == b && charsStartWith as bs

/-- Whether the first character list occurs inside the second. -/
def charsContain (pat : List Char) : List Char → Bool
  | [] => charsStartWith pat []
  | c :: rest => charsStartWith pat (c :: rest) || charsContain pat rest

/-- Mirrors JavaScript `String.prototype.includes` (substring test), used as
`key.includes('articles')` in `refreshCache`. -/
def strContains (s pat : String) : Bool :=
  charsContain pat.toList s.toList

/-- The `{ data, timestamp }` object that `getWithSWR`/`refreshCache` store in
both cache tiers. -/
structure CacheEntry where
  data : JsVal
  timestamp : Nat

/-- One `node-cache` slot: the stored object plus its expiry time in ms
(`0` means no expiry, as in `node-cache`). -/
structure NCEntry where
  val : CacheEntry
  expiry : Nat

/-- The L1 `node-cache` instance (`memoryCache`): entries in insertion order
(JavaScript object key order for string keys) and the `maxKeys` option. -/
structure NodeCache where
  entries : List (String × NCEntry)
  maxKeys : Nat

/-- Association-list lookup by key. -/
def lookupKey [DecidableEq κ] (k : κ) : List (κ × β) → Option β
  | [] => none
  | (k', v) :: rest => if k' = k then some v else lookupKey k rest

namespace NodeCache

/-- `node-cache` `del`: remove the key. -/
def del (c : NodeCache) (k : String) : NodeCache :=
  { c with entries := c.entries.filter (fun p => p.1 ≠ k) }

/-- `node-cache` `set(key, value, ttl)` (ttl in seconds).  If the cache
already holds `maxKeys` entries the call throws `ECACHEFULL` (the check is
made before looking at the key, so even overwrites fail at capacity);
otherwise the entry is stored with expiry `now + ttl*1000` (`0` for no
expiry), an existing key keeping its insertion position. -/
def set (c : NodeCache) (k : String) (v : CacheEntry) (ttl now : Nat) :
    Except String NodeCache :=
  if c.maxKeys ≤ c.entries.length then
    .error ("ECACHEFULL")
  else
    let e : NCEntry := ⟨v, if ttl = 0 then 0 else now + ttl * 1000⟩
    if (lookupKey k c.entries).isSome then
      .ok { c with entries := c.entries.map (fun p => if p.1 = k then (k, e) else p) }
    else
      .ok { c with entries := c.entries ++ [(k, e)] }

/-- `node-cache` `get(key)`: an entry whose expiry has passed is deleted and
reported absent; a live entry is returned unchanged. -/
def get (c : NodeCache) (k : String) (now : Nat) : Option CacheEntry × NodeCache :=
  match lookupKey k c.entries with
  | none => (none, c)
  | some e =>
    if e.expiry ≠ 0 ∧ e.expiry < now then (none, c.del k)
    else (some e.val, c)

end NodeCache

/-- The Redis (L2) tier as seen through one `getWithSWR` call: the stored
entries (JSON round-trip modelled as identity), plus whether the `get` /
`setex` commands of this call raise (network errors, caught by the
orchestrator). -/
structure RedisState where
  store : List (String × CacheEntry)
  failGet : Bool
  failSet : Bool

/-- Insert-or-overwrite in the Redis store. -/
def upsert (l : List (String × CacheEntry)) (k : String) (v : CacheEntry) :
    List (String × CacheEntry) :=
  if (lookupKey k l).isSome then
    l.map (fun p => if p.1 = k then (k, v) else p)
  else l ++ [(k, v)]

/-- The two cache tiers of `advancedCache`; `redis = none` models
"Redis not configured". -/
structure CacheState where
  memory : NodeCache
  redis : Option RedisState

/-- `priority` option of `getWithSWR` / request priority of the rate
limiter. -/
inductive Priority where
  | low | normal | high
deriving DecidableEq, Repr

/-- Options of `getWithSWR` with the source's defaults
(`ttl = 300`, `staleTime = 60`, `priority = 'normal'`). -/
structure SWROptions where
  ttl : Nat := 300
  staleTime : Nat := 60
  priority : Priority := .normal
deriving DecidableEq, Repr

namespace AdvancedCache

/-- `AdvancedCache.refreshCache(key, fetchFunction, ttl)`.  The caller-supplied
`fetchFunction` is an oracle `fetch : Nat → Except String JsVal` giving the
outcome of its `n`-th invocation; the returned `Nat` is the next invocation
index.  On fetch success: an empty array under a key containing `'articles'`
is returned without being stored; otherwise the `{data, timestamp}` entry is
written to the memory tier (whose `set` may itself throw `ECACHEFULL`, which
propagates out of `refreshCache`) and then to Redis if configured (Redis
errors being caught and logged).  On fetch failure the error is rethrown and
nothing is stored. -/
def refreshCache (st : CacheState) (key : String) (fetch : Nat → Except String JsVal)
    (n : Nat) (ttl now : Nat) : Except String JsVal × CacheState × Nat :=
  match fetch n with
  | .error e => (.error e, st, n + 1)
  | .ok freshData =>
    if strContains key ("articles") && isEmptyArray freshData then
      (.ok freshData, st, n + 1)
    else
      let cacheEntry : CacheEntry := ⟨freshData, now⟩
      match st.memory.set key cacheEntry ttl now with
      | .error e => (.error e, st, n + 1)
      | .ok mem' =>
        let st' : CacheState := { st with memory := mem' }
        match st'.redis with
        | none => (.ok freshData, st', n + 1)
        | some r =>
          if r.failSet then (.ok freshData, st', n + 1)
          else
            (.ok freshData,
             { st' with redis := some { r with store := upsert r.store key cacheEntry } },
             n + 1)

/-- Result of one `getWithSWR` call: the value or error delivered to the
caller, the cache state after the synchronous part of the call, how many
times `fetchFunction` was invoked synchronously, and whether a background
refresh was scheduled (`backgroundRefresh` via `setTimeout`). -/
structure SWROut where
  result : Except String JsVal
  state : CacheState
  fetchCalls : Nat
  bgScheduled : Bool

/-- `AdvancedCache.getWithSWR(key, fetchFunction, options)`.

L1: a live memory entry is returned at once; if its age exceeds
`(ttl − staleTime) * 1000` ms and the priority is not `'low'`, a background
refresh is scheduled.  L2: on a memory miss with Redis configured, a Redis
hit is copied into the memory tier and returned (a Redis `get` error, or an
`ECACHEFULL` throw from the memory `set`, is caught by the Redis `catch` and
treated as a miss).  Full miss: `refreshCache` runs synchronously; if it
throws, the outer `catch` falls back to one more direct `fetchFunction()`
call whose outcome (uncached) is delivered to the caller. -/
def getWithSWR (st : CacheState) (key : String) (fetch : Nat → Except String JsVal)
    (opts : SWROptions) (now : Nat) : SWROut :=
  let ttl := opts.ttl
  let staleTime := opts.staleTime
  match st.memory.get key now with
  | (some memoryData, mem') =>
    let age : Int := (now : Int) - (memoryData.timestamp : Int)
    let isStale : Bool := decide (age > ((ttl : Int) - (staleTime : Int)) * 1000)
    { result := .ok memoryData.data
      state := { st with memory := mem' }
      fetchCalls := 0
      bgScheduled := isStale && opts.priority != .low }
  | (none, mem') =>
    let st1 : CacheState := { st with memory := mem' }
    let l2 : Option SWROut :=
      match st1.redis with
      | none => none
      | some r =>
        if r.failGet then none
        else
          match lookupKey key r.store with
          | none => none
          | some parsed =>
            match st1.memory.set key parsed ttl now with
            | .error _ => none
            | .ok mem2 =>
              some { result := .ok parsed.data
                     state := { st1 with memory := mem2 }
                     fetchCalls := 0
                     bgScheduled := false }
    match l2 with
    | some out => out
    | none =>
      match refreshCache st1 key fetch 0 ttl now with
      | (.ok v, st2, n) =>
        { result := .ok v, state := st2, fetchCalls := n, bgScheduled := false }
      | (.error _, st2, n) =>
        match fetch n with
        | .ok v =>
          { result := .ok v, state := st2, fetchCalls := n + 1, bgScheduled := false }
        | .error e2 =>
          { result := .error e2, state := st2, fetchCalls := n + 1, bgScheduled := false }

/-- `AdvancedCache.backgroundRefresh(key, fetchFunction, ttl)`: the deferred
`refreshCache` run whose error is caught and only logged. -/
def backgroundRefresh (st : CacheState) (key : String) (fetch : Nat → Except String JsVal)
    (n ttl now : Nat) : CacheState × Nat :=
  match refreshCache st key fetch n ttl now with
  | (_, st', n') => (st', n')

/-- The Redis tier yields nothing for `key` on this call: the tier is not
configured, or its `get` raises, or the key is absent. -/
def redisMiss (st : CacheState) (key : String) : Prop :=
  ∀ r, st.redis = some r → r.failGet = true ∨ (lookupKey key r.store).isNone = true

end AdvancedCache



namespace AdvancedCache

/-- `refreshCache` invokes the fetch function exactly once. -/
theorem refreshCache_calls (st : CacheState) (key : String)
    (fetch : Nat → Except String JsVal) (n ttl now : Nat) :
    (refreshCache st key fetch n ttl now).2.2 = n + 1 := by
  unfold refreshCache
  rcases fetch n with e | v
  · rfl
  · simp only
    split
    · rfl
    · rcases hset : st.memory.set key ⟨v, now⟩ ttl now with e | mem'
      · rfl
      · simp only
        rcases st.redis with _ | r
        · rfl
        · simp only
          split <;> rfl

/-- Reduction of `getWithSWR` on a memory (L1) hit. -/
theorem getWithSWR_memHit (st : CacheState) (key : String)
    (fetch : Nat → Except String JsVal) (opts : SWROptions) (now : Nat)
    (entry : CacheEntry) (mem' : NodeCache)
    (hget : st.memory.get key now = (some entry, mem')) :
    getWithSWR st key fetch opts now =
      { result := .ok entry.data
        state := { st with memory := mem' }
        fetchCalls := 0
        bgScheduled :=
          decide ((now : Int) - (entry.timestamp : Int) >
            ((opts.ttl : Int) - (opts.staleTime : Int)) * 1000) && opts.priority != .low } := by
  unfold getWithSWR
  rw [hget]

/-- Reduction of `getWithSWR` on a full miss (key live in neither tier):
the call is `refreshCache` followed, on error, by the direct-fetch
fallback of the outer `catch`. -/
theorem getWithSWR_fullMiss (st : CacheState) (key : String)
    (fetch : Nat → Except String JsVal) (opts : SWROptions) (now : Nat)
    (hmem : lookupKey key st.memory.entries = none)
    (hred : redisMiss st key) :
    getWithSWR st key fetch opts now =
      match refreshCache st key fetch 0 opts.ttl now with
      | (.ok v, st2, n) =>
        { result := .ok v, state := st2, fetchCalls := n, bgScheduled := false }
      | (.error _, st2, n) =>
        match fetch n with
        | .ok v =>
          { result := .ok v, state := st2, fetchCalls := n + 1, bgScheduled := false }
        | .error e2 =>
          { result := .error e2, state := st2, fetchCalls := n + 1, bgScheduled := false } := by
  obtain ⟨mem, rd⟩ := st
  simp only at hmem
  have hget : NodeCache.get mem key now = (none, mem) := by
    unfold NodeCache.get
    rw [hmem]
  unfold getWithSWR
  rw [hget]
  rcases rd with _ | r
  · rfl
  · by_cases hfail : r.failGet = true
    · simp only [hfail, if_true]
    · rcases hred r rfl with h | hmiss
      · exact absurd h hfail
      · rw [Option.isNone_iff_eq_none] at hmiss
        simp only [hmiss, if_neg hfail]

/-- On a full miss the fetch function is invoked at least once by
`getWithSWR`. -/
theorem getWithSWR_fullMiss_fetch_pos (st : CacheState) (key : String)
    (fetch : Nat → Except String JsVal) (opts : SWROptions) (now : Nat)
    (hmem : lookupKey key st.memory.entries = none)
    (hred : redisMiss st key) :
    1 ≤ (getWithSWR st key fetch opts now).fetchCalls := by
  rw [getWithSWR_fullMiss st key fetch opts now hmem hred]
  rcases h : refreshCache st key fetch 0 opts.ttl now with ⟨res, st2, n⟩
  have hn : n = 1 := by
    have hc := refreshCache_calls st key fetch 0 opts.ttl now
    rw [h] at hc
    exact hc
  subst hn
  rcases res with e | v
  · rcases hf : fetch 1 with e2 | v2 <;> simp [hf]
  · simp

/-- C1: a value returned from `getWithSWR` for a key whose Local Cache entry
was stored less than `ttl − staleTime` seconds ago is exactly the stored
value; the fetch function is not invoked and no background recomputation is
scheduled. -/
theorem swr_fresh_hit_returns_stored (st : CacheState) (key : String)
    (fetch : Nat → Except String JsVal) (opts : SWROptions) (now : Nat)
    (entry : CacheEntry) (mem' : NodeCache)
    (hget : st.memory.get key now = (some entry, mem'))
    (hfresh : (now : Int) - (entry.timestamp : Int) <
      ((opts.ttl : Int) - (opts.staleTime : Int)) * 1000) :
    (getWithSWR st key fetch opts now).result = .ok entry.data ∧
    (getWithSWR st key fetch opts now).fetchCalls = 0 ∧
    (getWithSWR st key fetch opts now).bgScheduled = false := by
  rw [getWithSWR_memHit st key fetch opts now entry mem' hget]
  refine ⟨rfl, rfl, ?_⟩
  have hns : decide ((now : Int) - (entry.timestamp : Int) >
      ((opts.ttl : Int) - (opts.staleTime : Int)) * 1000) = false := by
    simp only [decide_eq_false_iff_not, gt_iff_lt, not_lt]
    omega
  simp [hns]

/-- Memory tier fixture for witnesses: one entry under key `k`, stored at
t = 1000 ms with ttl 300 s (expiry 301000 ms), value `7`. -/
def wEntry : CacheEntry := ⟨JsVal.num 7, 1000⟩

def wMem : NodeCache := ⟨[(("k"), ⟨wEntry, 301000⟩)], 500⟩

def wState : CacheState := ⟨wMem, none⟩

def wOpts : SWROptions := ⟨300, 60, .normal⟩

def wFetchNull : Nat → Except String JsVal := fun _ => .ok JsVal.null

theorem swr_fresh_hit_returns_stored_witness :
    wState.memory.get ("k") 2000 = (some wEntry, wMem) ∧
    ((2000 : Int) - (wEntry.timestamp : Int) <
      ((wOpts.ttl : Int) - (wOpts.staleTime : Int)) * 1000) ∧
    ((getWithSWR wState ("k") wFetchNull wOpts 2000).result = .ok wEntry.data ∧
     (getWithSWR wState ("k") wFetchNull wOpts 2000).fetchCalls = 0 ∧
     (getWithSWR wState ("k") wFetchNull wOpts 2000).bgScheduled = false) :=
  ⟨rfl, by decide,
   swr_fresh_hit_returns_stored wState ("k") wFetchNull wOpts 2000 wEntry wMem rfl (by decide)⟩

/-- C2: a stale-but-unexpired Local Cache hit returns the cached value
immediately (no synchronous fetch, for every fetch oracle — so a failing
background recomputation cannot affect it), and schedules a background
recomputation exactly when the priority is not `low`. -/
theorem swr_stale_hit_serves_and_schedules (st : CacheState) (key : String)
    (fetch : Nat → Except String JsVal) (opts : SWROptions) (now : Nat)
    (entry : CacheEntry) (mem' : NodeCache)
    (hget : st.memory.get key now = (some entry, mem'))
    (hstale : ((opts.ttl : Int) - (opts.staleTime : Int)) * 1000 <
      (now : Int) - (entry.timestamp : Int)) :
    (getWithSWR st key fetch opts now).result = .ok entry.data ∧
    (getWithSWR st key fetch opts now).fetchCalls = 0 ∧
    (getWithSWR st key fetch opts now).bgScheduled = (opts.priority != .low) := by
  rw [getWithSWR_memHit st key fetch opts now entry mem' hget]
  refine ⟨rfl, rfl, ?_⟩
  have hs : decide ((now : Int) - (entry.timestamp : Int) >
      ((opts.ttl : Int) - (opts.staleTime : Int)) * 1000) = true := by
    simp only [decide_eq_true_eq, gt_iff_lt]
    omega
  simp [hs]

theorem swr_stale_hit_serves_and_schedules_witness :
    wState.memory.get ("k") 250000 = (some wEntry, wMem) ∧
    (((wOpts.ttl : Int) - (wOpts.staleTime : Int)) * 1000 <
      (250000 : Int) - (wEntry.timestamp : Int)) ∧
    ((getWithSWR wState ("k") wFetchNull wOpts 250000).result = .ok wEntry.data ∧
     (getWithSWR wState ("k") wFetchNull wOpts 250000).fetchCalls = 0 ∧
     (getWithSWR wState ("k") wFetchNull wOpts 250000).bgScheduled = (wOpts.priority != .low)) :=
  ⟨rfl, by decide,
   swr_stale_hit_serves_and_schedules wState ("k") wFetchNull wOpts 250000 wEntry wMem rfl
     (by decide)⟩

/-- C3: on a miss for an article-listing key (a key containing `articles`)
whose fetch returns an empty array, the empty result is returned but nothing
is stored in either tier (the cache state is unchanged), so a subsequent
`getWithSWR` call for the same key — at any later time, in particular within
the TTL window — invokes the fetch function again. -/
theorem swr_empty_articles_not_cached (st : CacheState) (key : String)
    (fetch fetch' : Nat → Except String JsVal) (opts opts' : SWROptions)
    (now now' : Nat) (v : JsVal)
    (hmem : lookupKey key st.memory.entries = none)
    (hred : redisMiss st key)
    (hkey : strContains key ("articles") = true)
    (hfetch : fetch 0 = .ok v)
    (hempty : isEmptyArray v = true) :
    (getWithSWR st key fetch opts now).result = .ok v ∧
    (getWithSWR st key fetch opts now).state = st ∧
    1 ≤ (getWithSWR (getWithSWR st key fetch opts now).state key fetch' opts' now').fetchCalls := by
  have hrc : refreshCache st key fetch 0 opts.ttl now = (.ok v, st, 1) := by
    unfold refreshCache
    rw [hfetch]
    simp [hkey, hempty]
  have hmain : getWithSWR st key fetch opts now =
      { result := .ok v, state := st, fetchCalls := 1, bgScheduled := false } := by
    rw [getWithSWR_fullMiss st key fetch opts now hmem hred, hrc]
  refine ⟨by rw [hmain], by rw [hmain], ?_⟩
  rw [hmain]
  exact getWithSWR_fullMiss_fetch_pos st key fetch' opts' now' hmem hred

def wEmptyMem : NodeCache := ⟨[], 500⟩

def wEmptyState : CacheState := ⟨wEmptyMem, none⟩

/-- A state without a configured Redis tier misses every key in that tier. -/
theorem redisMiss_wEmptyState (key : String) : redisMiss wEmptyState key :=
  fun _ h => nomatch h

def wFetchEmptyArr : Nat → Except String JsVal := fun _ => .ok (JsVal.arr [])

theorem swr_empty_articles_not_cached_witness :
    lookupKey ("articles:home:20:0") wEmptyState.memory.entries = none ∧
    redisMiss wEmptyState ("articles:home:20:0") ∧
    strContains ("articles:home:20:0") ("articles") = true ∧
    wFetchEmptyArr 0 = .ok (JsVal.arr []) ∧
    isEmptyArray (JsVal.arr []) = true ∧
    ((getWithSWR wEmptyState ("articles:home:20:0") wFetchEmptyArr wOpts 5000).result
        = .ok (JsVal.arr []) ∧
     (getWithSWR wEmptyState ("articles:home:20:0") wFetchEmptyArr wOpts 5000).state
        = wEmptyState ∧
     1 ≤ (getWithSWR
        (getWithSWR wEmptyState ("articles:home:20:0") wFetchEmptyArr wOpts 5000).state
        ("articles:home:20:0") wFetchEmptyArr wOpts 9000).fetchCalls) :=
  ⟨rfl, redisMiss_wEmptyState ("articles:home:20:0"), by decide, rfl, rfl,
   swr_empty_articles_not_cached wEmptyState ("articles:home:20:0")
     wFetchEmptyArr wFetchEmptyArr wOpts wOpts 5000 9000 (JsVal.arr [])
     rfl (redisMiss_wEmptyState ("articles:home:20:0")) (by decide) rfl rfl⟩

def ceFetchFailThenOk : Nat → Except String JsVal := fun n =>
  if n = 0 then .error ("boom") else .ok (JsVal.num 42)

/-- C4 counterexample: on a full miss whose fetch function raises on its
first invocation, `getWithSWR` does not propagate the failure — the outer
catch retries the fetch directly and here delivers the second invocation's
value `42` to the caller. -/
theorem swr_miss_failure_not_propagated_counterexample :
    lookupKey ("k") wEmptyState.memory.entries = none ∧
    ceFetchFailThenOk 0 = .error ("boom") ∧
    (getWithSWR wEmptyState ("k") ceFetchFailThenOk wOpts 0).result = .ok (JsVal.num 42) :=
  ⟨rfl, rfl, rfl⟩

/-- C4 (amended): on a full miss whose fetch raises on first invocation,
`getWithSWR` invokes the fetch a second time and delivers that second
outcome to the caller — the failure is propagated only if the second
invocation also raises — and in all cases nothing is cached in either tier
(the cache state is unchanged). -/
theorem swr_miss_failure_retry_then_propagate (st : CacheState) (key : String)
    (fetch : Nat → Except String JsVal) (opts : SWROptions) (now : Nat)
    (e : String)
    (hmem : lookupKey key st.memory.entries = none)
    (hred : redisMiss st key)
    (hfail : fetch 0 = .error e) :
    (getWithSWR st key fetch opts now).result = fetch 1 ∧
    (getWithSWR st key fetch opts now).state = st := by
  have hrc : refreshCache st key fetch 0 opts.ttl now = (.error e, st, 1) := by
    unfold refreshCache
    rw [hfail]
  rw [getWithSWR_fullMiss st key fetch opts now hmem hred, hrc]
  rcases hf1 : fetch 1 with e2 | v <;> simp [hf1]

theorem swr_miss_failure_retry_then_propagate_witness :
    lookupKey ("k") wEmptyState.memory.entries = none ∧
    redisMiss wEmptyState ("k") ∧
    ceFetchFailThenOk 0 = .error ("boom") ∧
    ((getWithSWR wEmptyState ("k") ceFetchFailThenOk wOpts 0).result = ceFetchFailThenOk 1 ∧
     (getWithSWR wEmptyState ("k") ceFetchFailThenOk wOpts 0).state = wEmptyState) :=
  ⟨rfl, redisMiss_wEmptyState ("k"), rfl,
   swr_miss_failure_retry_then_propagate wEmptyState ("k") ceFetchFailThenOk wOpts 0
     ("boom") rfl (redisMiss_wEmptyState ("k")) rfl⟩

/-- C10: on a full miss whose fetch raises on its first invocation,
`getWithSWR` invokes the fetch exactly twice before settling; the caller
receives the second invocation's value when it succeeds, and observes a
failure only when that second invocation also raises. -/
theorem swr_miss_retries_fetch_once (st : CacheState) (key : String)
    (fetch : Nat → Except String JsVal) (opts : SWROptions) (now : Nat)
    (e : String)
    (hmem : lookupKey key st.memory.entries = none)
    (hred : redisMiss st key)
    (hfail : fetch 0 = .error e) :
    (getWithSWR st key fetch opts now).fetchCalls = 2 ∧
    (∀ v, fetch 1 = .ok v → (getWithSWR st key fetch opts now).result = .ok v) ∧
    (∀ e2, (getWithSWR st key fetch opts now).result = .error e2 → fetch 1 = .error e2) := by
  have hrc : refreshCache st key fetch 0 opts.ttl now = (.error e, st, 1) := by
    unfold refreshCache
    rw [hfail]
  rw [getWithSWR_fullMiss st key fetch opts now hmem hred, hrc]
  rcases hf1 : fetch 1 with e2 | v <;> simp [hf1]

theorem swr_miss_retries_fetch_once_witness :
    lookupKey ("k") wEmptyState.memory.entries = none ∧
    redisMiss wEmptyState ("k") ∧
    ceFetchFailThenOk 0 = .error ("boom") ∧
    ((getWithSWR wEmptyState ("k") ceFetchFailThenOk wOpts 0).fetchCalls = 2 ∧
     (∀ v, ceFetchFailThenOk 1 = .ok v →
       (getWithSWR wEmptyState ("k") ceFetchFailThenOk wOpts 0).result = .ok v) ∧
     (∀ e2, (getWithSWR wEmptyState ("k") ceFetchFailThenOk wOpts 0).result = .error e2 →
       ceFetchFailThenOk 1 = .error e2)) :=
  ⟨rfl, redisMiss_wEmptyState ("k"), rfl,
   swr_miss_retries_fetch_once wEmptyState ("k") ceFetchFailThenOk wOpts 0
     ("boom") rfl (redisMiss_wEmptyState ("k")) rfl⟩

end AdvancedCache

/-- A queued rate-limiter request (`queueRequest`'s queue entry): request id,
estimated token cost, priority, and enqueue time. -/
structure QEntry where
  rid : Nat
  cost : Nat
  priority : Priority
  enqueuedAt : Nat
deriving DecidableEq, Repr

namespace GroqRateLimiter

/-- The request ids of a queue, in queue order. -/
def rids (q : List QEntry) : List Nat := q.map QEntry.rid

/-- Queue insertion of `queueRequest`: a high-priority entry is unshifted to
the front, everything else is pushed to the back. -/
def enqueue (q : List QEntry) (e : QEntry) : List QEntry :=
  if e.priority = .high then e :: q else q ++ [e]

/-- How a request's promise settled. -/
inductive Outcome where
  | completed | failed | timedOut
deriving DecidableEq, Repr

/-- Record a settlement; the first settlement of a request id wins
(promise semantics). -/
def settle (m : List (Nat × Outcome)) (rid : Nat) (o : Outcome) :
    List (Nat × Outcome) :=
  if (lookupKey rid m).isSome then m else m ++ [(rid, o)]

/-- State of the rate limiter over one or more windows, with two observation
ghosts: `settled` records how each request's promise settled, `dispatched`
records the order in which requests were handed to `executeImmediate`.
`tokensUsed` is `metrics.tokensUsed` counted from the start of the modelled
run. -/
structure RLState where
  tokensPerMinute : Nat
  availableTokens : Nat
  queue : List QEntry
  tokensUsed : Nat
  settled : List (Nat × Outcome)
  dispatched : List Nat
deriving DecidableEq, Repr

/-- Window-start state: the bucket is full and no request has run. -/
def rlInit (cap : Nat) : RLState := ⟨cap, cap, [], 0, [], []⟩

/-- `executeImmediate(requestFunction, estimatedTokens, ...)`: debit the
tokens and `tokensUsed`, run the request function, and on failure credit
both back (the debit and the credit-back of a single call are one atomic
step here; `fails` is whether the request function throws). -/
def execImmediate (s : RLState) (cost rid : Nat) (fails : Bool) : RLState :=
  if fails then
    { s with settled := settle s.settled rid .failed
             dispatched := s.dispatched ++ [rid] }
  else
    { s with availableTokens := s.availableTokens - cost
             tokensUsed := s.tokensUsed + cost
             settled := settle s.settled rid .completed
             dispatched := s.dispatched ++ [rid] }

/-- The `while` loop of `processQueue`: starting from the head, while tokens
remain and the head's cost fits, shift the head, clear its timer and run it
through `executeImmediate`; a failed dispatch rejects only that entry and
the loop continues.  `fails` gives each request function's outcome by
request id. -/
def drain (fails : Nat → Bool) : RLState → List QEntry → RLState
  | s, [] => { s with queue := [] }
  | s, e :: rest =>
    if s.availableTokens = 0 then { s with queue := e :: rest }
    else if e.cost ≤ s.availableTokens then
      drain fails (execImmediate { s with queue := rest } e.cost e.rid (fails e.rid)) rest
    else { s with queue := e :: rest }

/-- Events observable at the rate limiter. -/
inductive RLEvent where
  | submit (e : QEntry) (fails : Bool)
  | tick (fails : Nat → Bool)
  | refill (fails : Nat → Bool)
  | timeoutFire (rid : Nat)

/-- One step of the rate limiter:

* `submit` is `executeRequest`: when `estimatedTokens ≤ availableTokens` the
  request runs via `executeImmediate`, otherwise it is queued via
  `queueRequest`.  Request ids (`req_<time>_<random>`) are unique in the
  source, so a duplicate id is modelled as a no-op;
* `tick` is the 5-second `processQueue` timer;
* `refill` is the one-minute timer: the bucket refills to `tokensPerMinute`,
  then `processQueue` runs;
* `timeoutFire rid` is the expiry of a queued entry's `setTimeout`:
  `removeFromQueue(rid)` runs and the promise is rejected with a timeout
  error.  `processQueue` clears an entry's timer in the same synchronous
  block that shifts it off the queue, so the timer can only fire while the
  entry is still queued. -/
def rlStep (s : RLState) : RLEvent → RLState
  | .submit e fails =>
    if (lookupKey e.rid s.settled).isSome ∨ e.rid ∈ rids s.queue then s
    else if e.cost ≤ s.availableTokens then execImmediate s e.cost e.rid fails
    else { s with queue := enqueue s.queue e }
  | .tick fails => drain fails s s.queue
  | .refill fails => drain fails { s with availableTokens := s.tokensPerMinute } s.queue
  | .timeoutFire rid =>
    if rid ∈ rids s.queue then
      { s with queue := s.queue.filter (fun x => x.rid ≠ rid)
               settled := settle s.settled rid .timedOut }
    else s

/-- Run a list of events. -/
def rlRun (s : RLState) (es : List RLEvent) : RLState := es.foldl rlStep s

/-- Whether an event list contains a window refill. -/
def hasRefill : List RLEvent → Bool
  | [] => false
  | .refill _ :: _ => true
  | _ :: rest => hasRefill rest

theorem lookupKey_append [DecidableEq κ] (k : κ) (l l' : List (κ × β)) :
    lookupKey k (l ++ l') =
      match lookupKey k l with
      | some v => some v
      | none => lookupKey k l' := by
  induction l with
  | nil => rfl
  | cons p rest ih =>
    rcases p with ⟨k', v⟩
    by_cases h : k' = k <;> simp [lookupKey, h, ih]

theorem settle_lookup_self (m : List (Nat × Outcome)) (rid : Nat) (o : Outcome)
    (h : lookupKey rid m = none) :
    lookupKey rid (settle m rid o) = some o := by
  unfold settle
  rw [h]
  simp [lookupKey_append, h, lookupKey]

theorem settle_lookup_other (m : List (Nat × Outcome)) (rid r : Nat) (o : Outcome)
    (h : r ≠ rid) :
    lookupKey r (settle m rid o) = lookupKey r m := by
  unfold settle
  split
  · rfl
  · rw [lookupKey_append]
    rcases hr : lookupKey r m with _ | v
    · simp [lookupKey, Ne.symm h]
    · rfl

theorem settle_preserves_isSome (m : List (Nat × Outcome)) (rid r : Nat) (o : Outcome)
    (h : (lookupKey r m).isSome = true) :
    (lookupKey r (settle m rid o)).isSome = true := by
  unfold settle
  split
  · exact h
  · rw [lookupKey_append]
    rcases hr : lookupKey r m with _ | v
    · rw [hr] at h
      cases h
    · simp

theorem settle_preserves_some (m : List (Nat × Outcome)) (rid r : Nat) (o o' : Outcome)
    (h : lookupKey r m = some o) :
    lookupKey r (settle m rid o') = some o := by
  unfold settle
  split
  · exact h
  · rw [lookupKey_append, h]

theorem execImmediate_queue (s : RLState) (cost rid : Nat) (f : Bool) :
    (execImmediate s cost rid f).queue = s.queue := by
  unfold execImmediate
  split <;> rfl

theorem execImmediate_dispatched (s : RLState) (cost rid : Nat) (f : Bool) :
    (execImmediate s cost rid f).dispatched = s.dispatched ++ [rid] := by
  unfold execImmediate
  split <;> rfl

theorem execImmediate_settled (s : RLState) (cost rid : Nat) (f : Bool) :
    (execImmediate s cost rid f).settled
      = settle s.settled rid (if f then .failed else .completed) := by
  unfold execImmediate
  rcases f <;> simp

theorem execImmediate_budget (cap : Nat) (s : RLState) (cost rid : Nat) (f : Bool)
    (hc : cost ≤ s.availableTokens)
    (h : s.availableTokens + s.tokensUsed = cap) :
    (execImmediate s cost rid f).availableTokens
      + (execImmediate s cost rid f).tokensUsed = cap := by
  unfold execImmediate
  split
  · exact h
  · simp only
    omega

/-- C6 helper: a failed call leaves the available-token count unchanged (the
debit is credited back). -/
theorem execImmediate_failed_tokens (s : RLState) (cost rid : Nat) :
    (execImmediate s cost rid true).availableTokens = s.availableTokens := rfl

/-- Queue shape after any sequence of `queueRequest` insertions starting
from `q`: the high-priority entries form a reversed prefix in front, the
normal/low entries are appended in FIFO order behind. -/
theorem foldl_enqueue (es : List QEntry) (q : List QEntry) :
    es.foldl enqueue q
      = (es.filter fun e => decide (e.priority = Priority.high)).reverse
        ++ q ++ es.filter (fun e => !decide (e.priority = Priority.high)) := by
  induction es generalizing q with
  | nil => simp
  | cons e es ih =>
    simp only [List.foldl_cons, List.filter_cons]
    by_cases h : e.priority = Priority.high
    · rw [show enqueue q e = e :: q from by simp [enqueue, h]]
      rw [ih (e :: q)]
      simp [h]
    · rw [show enqueue q e = q ++ [e] from by simp [enqueue, h]]
      rw [ih (q ++ [e])]
      simp [h]

/-- `processQueue` dispatches an initial segment of the queue, in queue
order, and leaves the corresponding suffix queued. -/
theorem drain_dispatch_order (fails : Nat → Bool) (s : RLState) (q : List QEntry) :
    ∃ n, (drain fails s q).dispatched = s.dispatched ++ rids (q.take n) ∧
      (drain fails s q).queue = q.drop n := by
  induction q generalizing s with
  | nil => exact ⟨0, by simp [drain, rids]⟩
  | cons e rest ih =>
    unfold drain
    by_cases h0 : s.availableTokens = 0
    · rw [if_pos h0]
      exact ⟨0, by simp [rids]⟩
    · rw [if_neg h0]
      by_cases hc : e.cost ≤ s.availableTokens
      · rw [if_pos hc]
        obtain ⟨n, h1, h2⟩ := ih (execImmediate { s with queue := rest } e.cost e.rid (fails e.rid))
        refine ⟨n + 1, ?_, ?_⟩
        · rw [h1, execImmediate_dispatched]
          simp [rids]
        · rw [h2]
          rfl
      · rw [if_neg hc]
        exact ⟨0, by simp [rids]⟩

theorem drain_budget (cap : Nat) (fails : Nat → Bool) (s : RLState) (q : List QEntry)
    (h : s.availableTokens + s.tokensUsed = cap) :
    (drain fails s q).availableTokens + (drain fails s q).tokensUsed = cap := by
  induction q generalizing s with
  | nil => exact h
  | cons e rest ih =>
    unfold drain
    by_cases h0 : s.availableTokens = 0
    · rw [if_pos h0]
      exact h
    · rw [if_neg h0]
      by_cases hc : e.cost ≤ s.availableTokens
      · rw [if_pos hc]
        exact ih _ (execImmediate_budget cap _ e.cost e.rid _ hc h)
      · rw [if_neg hc]
        exact h

/-- Whether an event is the one-minute refill. -/
def isRefillEv : RLEvent → Bool
  | .refill _ => true
  | _ => false

theorem rlStep_budget (cap : Nat) (s : RLState) (ev : RLEvent)
    (hev : isRefillEv ev = false)
    (h : s.availableTokens + s.tokensUsed = cap) :
    (rlStep s ev).availableTokens + (rlStep s ev).tokensUsed = cap := by
  cases ev with
  | submit e fails =>
    simp only [rlStep]
    split
    · exact h
    · split
      · exact execImmediate_budget cap s e.cost e.rid fails (by assumption) h
      · exact h
  | tick fails => exact drain_budget cap fails s s.queue h
  | refill fails => exact Bool.noConfusion hev
  | timeoutFire rid =>
    simp only [rlStep]
    split <;> exact h

theorem hasRefill_cons (ev : RLEvent) (es : List RLEvent)
    (h : hasRefill (ev :: es) = false) :
    isRefillEv ev = false ∧ hasRefill es = false := by
  cases ev <;> simp_all [hasRefill, isRefillEv]

theorem rlRun_budget (cap : Nat) (s : RLState) (es : List RLEvent)
    (hw : hasRefill es = false)
    (h : s.availableTokens + s.tokensUsed = cap) :
    (rlRun s es).availableTokens + (rlRun s es).tokensUsed = cap := by
  induction es generalizing s with
  | nil => exact h
  | cons ev rest ih =>
    obtain ⟨h1, h2⟩ := hasRefill_cons ev rest hw
    exact ih (rlStep s ev) h2 (rlStep_budget cap s ev h1 h)

/-- C5 counterexample: two high-priority requests queued while the budget is
short are dispatched in LIFO order once the bucket refills — the request
enqueued later (`rid 2`) runs before the one enqueued earlier (`rid 1`),
violating FIFO within the high-priority tier. -/
def ceH1 : QEntry := ⟨1, 10, .high, 100⟩

def ceH2 : QEntry := ⟨2, 10, .high, 200⟩

def ceFirst : QEntry := ⟨0, 20, .normal, 0⟩

theorem groq_high_fifo_counterexample :
    ceH1.enqueuedAt < ceH2.enqueuedAt ∧
    (rlRun (rlInit 25)
        [.submit ceFirst false, .submit ceH1 false, .submit ceH2 false,
         .refill (fun _ => false)]).dispatched = [0, 2, 1] := by
  constructor
  · decide
  · rfl

/-- C5 (amended): for every insertion sequence, the rate limiter queue is the
reversed list of its high-priority entries followed by the normal/low
entries in FIFO order (so high is dispatched before normal/low regardless of
enqueue time, normal and low are FIFO but mutually indistinguishable, and
queued high entries are in LIFO order among themselves); `processQueue`
dispatches an initial segment of the queue in queue order. -/
theorem groq_queue_ordering (es : List QEntry) (fails : Nat → Bool) (s : RLState) :
    es.foldl enqueue []
      = (es.filter fun e => decide (e.priority = Priority.high)).reverse
        ++ es.filter (fun e => !decide (e.priority = Priority.high)) ∧
    ∃ n, (drain fails s (es.foldl enqueue [])).dispatched
        = s.dispatched ++ rids ((es.foldl enqueue []).take n) ∧
      (drain fails s (es.foldl enqueue [])).queue = (es.foldl enqueue []).drop n := by
  constructor
  · have h := foldl_enqueue es []
    simpa using h
  · exact drain_dispatch_order fails s (es.foldl enqueue [])

/-- C6: within one refill window (no `refill` event), the net debited tokens
(`metrics.tokensUsed`: the sum of the costs of admitted requests that kept
their debit, failed admitted requests having been credited back) never
exceed the per-window capacity — indeed `availableTokens + tokensUsed` is
exactly the capacity — and an admitted request whose function fails leaves
the available-token count at its pre-call value. -/
theorem groq_budget_conservation (cap : Nat) (es : List RLEvent) (e : QEntry)
    (hw : hasRefill es = false)
    (hadm : e.cost ≤ (rlRun (rlInit cap) es).availableTokens) :
    (rlRun (rlInit cap) es).tokensUsed ≤ cap ∧
    (rlRun (rlInit cap) es).availableTokens + (rlRun (rlInit cap) es).tokensUsed = cap ∧
    (execImmediate (rlRun (rlInit cap) es) e.cost e.rid true).availableTokens
      = (rlRun (rlInit cap) es).availableTokens := by
  have hb : (rlRun (rlInit cap) es).availableTokens
      + (rlRun (rlInit cap) es).tokensUsed = cap :=
    rlRun_budget cap (rlInit cap) es hw rfl
  exact ⟨by omega, hb, execImmediate_failed_tokens _ e.cost e.rid⟩

/-- Scenario from the spec: capacity 100, one request costing 80 (admitted),
one costing 30 (queued since 20 remain); a third request costing 10 is then
admissible and its failure restores the budget. -/
theorem groq_budget_conservation_witness :
    hasRefill [RLEvent.submit ⟨1, 80, .normal, 0⟩ false,
               RLEvent.submit ⟨2, 30, .normal, 1⟩ false] = false ∧
    (10 : Nat) ≤ (rlRun (rlInit 100)
        [RLEvent.submit ⟨1, 80, .normal, 0⟩ false,
         RLEvent.submit ⟨2, 30, .normal, 1⟩ false]).availableTokens ∧
    ((rlRun (rlInit 100)
        [RLEvent.submit ⟨1, 80, .normal, 0⟩ false,
         RLEvent.submit ⟨2, 30, .normal, 1⟩ false]).tokensUsed ≤ 100 ∧
     (rlRun (rlInit 100)
        [RLEvent.submit ⟨1, 80, .normal, 0⟩ false,
         RLEvent.submit ⟨2, 30, .normal, 1⟩ false]).availableTokens +
       (rlRun (rlInit 100)
        [RLEvent.submit ⟨1, 80, .normal, 0⟩ false,
         RLEvent.submit ⟨2, 30, .normal, 1⟩ false]).tokensUsed = 100 ∧
     (execImmediate (rlRun (rlInit 100)
        [RLEvent.submit ⟨1, 80, .normal, 0⟩ false,
         RLEvent.submit ⟨2, 30, .normal, 1⟩ false]) 10 3 true).availableTokens
       = (rlRun (rlInit 100)
        [RLEvent.submit ⟨1, 80, .normal, 0⟩ false,
         RLEvent.submit ⟨2, 30, .normal, 1⟩ false]).availableTokens) :=
  ⟨rfl, by decide,
   groq_budget_conservation 100
     [RLEvent.submit ⟨1, 80, .normal, 0⟩ false, RLEvent.submit ⟨2, 30, .normal, 1⟩ false]
     ⟨3, 10, .normal, 2⟩ rfl (by decide)⟩

theorem mem_rids (r : Nat) (q : List QEntry) :
    r ∈ rids q ↔ ∃ x ∈ q, x.rid = r := by
  simp [rids]

theorem rids_enqueue (q : List QEntry) (e : QEntry) (r : Nat) :
    r ∈ rids (enqueue q e) ↔ r = e.rid ∨ r ∈ rids q := by
  unfold enqueue
  split
  · simp [rids, eq_comm]
  · simp [rids, eq_comm, or_comm]

theorem mem_enqueue (q : List QEntry) (e x : QEntry) :
    x ∈ enqueue q e ↔ x = e ∨ x ∈ q := by
  unfold enqueue
  split
  · simp
  · simp [or_comm]

/-- Invariant of reachable limiter states: every queued entry is unsettled
and was never dispatched, every dispatched id is settled, and queued ids are
pairwise distinct. -/
def rlInv (s : RLState) : Prop :=
  (∀ e ∈ s.queue, lookupKey e.rid s.settled = none ∧ e.rid ∉ s.dispatched) ∧
  (∀ rid ∈ s.dispatched, (lookupKey rid s.settled).isSome = true) ∧
  (rids s.queue).Nodup

theorem rlInv_init (cap : Nat) : rlInv (rlInit cap) := by
  refine ⟨?_, ?_, ?_⟩ <;> simp [rlInit, rids]

theorem drain_inv (fails : Nat → Bool) (s : RLState) (q : List QEntry)
    (hq : ∀ e ∈ q, lookupKey e.rid s.settled = none ∧ e.rid ∉ s.dispatched)
    (hnd : (rids q).Nodup)
    (hd : ∀ rid ∈ s.dispatched, (lookupKey rid s.settled).isSome = true) :
    (∀ e ∈ (drain fails s q).queue,
        lookupKey e.rid (drain fails s q).settled = none ∧
        e.rid ∉ (drain fails s q).dispatched) ∧
    (∀ rid ∈ (drain fails s q).dispatched,
        (lookupKey rid (drain fails s q).settled).isSome = true) ∧
    (rids (drain fails s q).queue).Nodup := by
  induction q generalizing s with
  | nil =>
    refine ⟨?_, ?_, ?_⟩
    · intro x hx
      simp [drain] at hx
    · intro rid hrid
      exact hd rid hrid
    · simp [drain, rids]
  | cons e rest ih =>
    simp only [rids, List.map_cons, List.nodup_cons] at hnd
    obtain ⟨hne, hnd'⟩ := hnd
    unfold drain
    by_cases h0 : s.availableTokens = 0
    · rw [if_pos h0]
      exact ⟨hq, hd, by simpa [rids] using List.nodup_cons.mpr ⟨hne, hnd'⟩⟩
    · rw [if_neg h0]
      by_cases hc : e.cost ≤ s.availableTokens
      · rw [if_pos hc]
        apply ih
        · intro x hx
          have hxq := hq x (List.mem_cons_of_mem e hx)
          have hxe : x.rid ≠ e.rid := by
            intro hEq
            exact hne (hEq ▸ List.mem_map_of_mem QEntry.rid hx)
          constructor
          · rw [execImmediate_settled]
            rw [settle_lookup_other _ _ _ _ hxe]
            exact hxq.1
          · rw [execImmediate_dispatched]
            simp only [List.mem_append, List.mem_singleton]
            rintro (h | h)
            · exact hxq.2 h
            · exact hxe h
        · simpa [rids] using hnd'
        · intro rid hrid
          rw [execImmediate_dispatched] at hrid
          rw [execImmediate_settled]
          rcases List.mem_append.mp hrid with h | h
          · exact settle_preserves_isSome _ _ _ _ (hd rid h)
          · have hEq : rid = e.rid := by simpa using h
            subst hEq
            rw [settle_lookup_self _ _ _ (hq e (List.mem_cons_self e rest)).1]
            rfl
      · rw [if_neg hc]
        exact ⟨hq, hd, by simpa [rids] using List.nodup_cons.mpr ⟨hne, hnd'⟩⟩

theorem rlStep_inv (s : RLState) (ev : RLEvent) (h : rlInv s) : rlInv (rlStep s ev) := by
  obtain ⟨hq, hd, hnd⟩ := h
  cases ev with
  | submit e fails =>
    simp only [rlStep]
    split
    · exact ⟨hq, hd, hnd⟩
    · rename_i hguard
      push_neg at hguard
      obtain ⟨hfresh, hnotin⟩ := hguard
      have hfresh' : lookupKey e.rid s.settled = none := by
        rcases hlk : lookupKey e.rid s.settled with _ | v
        · rfl
        · exact absurd (by rw [hlk]; rfl) hfresh
      split
      · refine ⟨?_, ?_, ?_⟩
        · intro x hx
          rw [execImmediate_queue] at hx
          have hxe : x.rid ≠ e.rid := by
            intro hEq
            exact hnotin (hEq ▸ List.mem_map_of_mem QEntry.rid hx)
          constructor
          · rw [execImmediate_settled, settle_lookup_other _ _ _ _ hxe]
            exact (hq x hx).1
          · rw [execImmediate_dispatched]
            simp only [List.mem_append, List.mem_singleton]
            rintro (hmem | hmem)
            · exact (hq x hx).2 hmem
            · exact hxe hmem
        · intro rid hrid
          rw [execImmediate_dispatched] at hrid
          rw [execImmediate_settled]
          rcases List.mem_append.mp hrid with hmem | hmem
          · exact settle_preserves_isSome _ _ _ _ (hd rid hmem)
          · have hEq : rid = e.rid := by simpa using hmem
            subst hEq
            rw [settle_lookup_self _ _ _ hfresh']
            rfl
        · rw [execImmediate_queue]
          exact hnd
      · refine ⟨?_, ?_, ?_⟩
        · intro x hx
          rcases (mem_enqueue s.queue e x).mp hx with hEq | hmem
          · subst hEq
            refine ⟨hfresh', ?_⟩
            intro hdisp
            have := hd x.rid hdisp
            rw [hfresh'] at this
            cases this
          · exact hq x hmem
        · intro rid hrid
          exact hd rid hrid
        · unfold enqueue
          split
          · simp only [rids, List.map_cons, List.nodup_cons]
            refine ⟨?_, hnd⟩
            simpa [rids] using hnotin
          · simp only [rids, List.map_append, List.map_cons, List.map_nil]
            rw [List.nodup_append]
            refine ⟨hnd, List.nodup_singleton e.rid, ?_⟩
            intro a ha hb
            have : a = e.rid := by simpa using hb
            subst this
            exact hnotin ha
  | tick fails => exact drain_inv fails s s.queue hq hnd hd
  | refill fails =>
    exact drain_inv fails { s with availableTokens := s.tokensPerMinute } s.queue hq hnd hd
  | timeoutFire rid =>
    simp only [rlStep]
    split
    · refine ⟨?_, ?_, ?_⟩
      · intro x hx
        have hx' : x ∈ s.queue := List.mem_of_mem_filter hx
        have hxr : x.rid ≠ rid := by simpa using List.of_mem_filter hx
        exact ⟨by rw [settle_lookup_other _ _ _ _ hxr]; exact (hq x hx').1, (hq x hx').2⟩
      · intro r hr
        exact settle_preserves_isSome _ _ _ _ (hd r hr)
      · exact List.Nodup.sublist ((List.filter_sublist _).map QEntry.rid) hnd
    · exact ⟨hq, hd, hnd⟩

theorem rlRun_inv (s : RLState) (es : List RLEvent) (h : rlInv s) : rlInv (rlRun s es) := by
  induction es generalizing s with
  | nil => exact h
  | cons ev rest ih => exact ih (rlStep s ev) (rlStep_inv s ev h)

/-- A request id that has settled with outcome `o`, is no longer queued and
was never dispatched keeps all three properties forever. -/
def settledAt (s : RLState) (rid : Nat) (o : Outcome) : Prop :=
  lookupKey rid s.settled = some o ∧ rid ∉ rids s.queue ∧ rid ∉ s.dispatched

theorem drain_settledAt (fails : Nat → Bool) (s : RLState) (q : List QEntry)
    (rid : Nat) (o : Outcome)
    (hs : lookupKey rid s.settled = some o)
    (hq : rid ∉ rids q)
    (hdp : rid ∉ s.dispatched) :
    lookupKey rid (drain fails s q).settled = some o ∧
    rid ∉ rids (drain fails s q).queue ∧
    rid ∉ (drain fails s q).dispatched := by
  induction q generalizing s with
  | nil => exact ⟨hs, by simp [drain, rids], hdp⟩
  | cons e rest ih =>
    have hne : rid ≠ e.rid := by
      intro hEq
      exact hq (by simp [rids, hEq])
    have hq' : rid ∉ rids rest := by
      intro hmem
      exact hq (by simp [rids] at hmem ⊢; right; exact hmem)
    unfold drain
    by_cases h0 : s.availableTokens = 0
    · rw [if_pos h0]
      exact ⟨hs, hq, hdp⟩
    · rw [if_neg h0]
      by_cases hc : e.cost ≤ s.availableTokens
      · rw [if_pos hc]
        apply ih
        · rw [execImmediate_settled]
          exact settle_preserves_some _ _ _ _ _ hs
        · exact hq'
        · rw [execImmediate_dispatched]
          simp only [List.mem_append, List.mem_singleton]
          rintro (hmem | hmem)
          · exact hdp hmem
          · exact hne hmem
      · rw [if_neg hc]
        exact ⟨hs, hq, hdp⟩

theorem settledAt_step (s : RLState) (ev : RLEvent) (rid : Nat) (o : Outcome)
    (h : settledAt s rid o) : settledAt (rlStep s ev) rid o := by
  obtain ⟨hs, hq, hdp⟩ := h
  cases ev with
  | submit e fails =>
    simp only [rlStep]
    split
    · exact ⟨hs, hq, hdp⟩
    · rename_i hguard
      push_neg at hguard
      obtain ⟨hfresh, _⟩ := hguard
      have hne : rid ≠ e.rid := by
        intro hEq
        apply hfresh
        rw [← hEq, hs]
        rfl
      split
      · refine ⟨?_, ?_, ?_⟩
        · rw [execImmediate_settled, settle_lookup_other _ _ _ _ hne]
          exact hs
        · rw [execImmediate_queue]
          exact hq
        · rw [execImmediate_dispatched]
          simp only [List.mem_append, List.mem_singleton]
          rintro (hmem | hmem)
          · exact hdp hmem
          · exact hne hmem
      · refine ⟨hs, ?_, hdp⟩
        intro hmem
        rcases (rids_enqueue s.queue e rid).mp hmem with hEq | hmem'
        · exact hne hEq
        · exact hq hmem'
  | tick fails => exact drain_settledAt fails s s.queue rid o hs hq hdp
  | refill fails =>
    exact drain_settledAt fails { s with availableTokens := s.tokensPerMinute } s.queue rid o
      hs hq hdp
  | timeoutFire r =>
    simp only [rlStep]
    split
    · refine ⟨settle_preserves_some _ _ _ _ _ hs, ?_, hdp⟩
      intro hmem
      rcases (mem_rids rid _).mp hmem with ⟨x, hx, hxr⟩
      exact hq ((mem_rids rid s.queue).mpr ⟨x, List.mem_of_mem_filter hx, hxr⟩)
    · exact ⟨hs, hq, hdp⟩

theorem settledAt_run (s : RLState) (es : List RLEvent) (rid : Nat) (o : Outcome)
    (h : settledAt s rid o) : settledAt (rlRun s es) rid o := by
  induction es generalizing s with
  | nil => exact h
  | cons ev rest ih => exact ih (rlStep s ev) (settledAt_step s ev rid o h)

/-- C7: a queued request whose timer fires before dispatch is removed from
the queue and its promise settles with the timeout error; afterwards —
whatever submits, `processQueue` ticks and window refills follow — it is
never dispatched and its settled outcome never changes (in particular it is
never resolved with a success result). -/
theorem groq_queue_timeout_enforced (cap : Nat) (es₁ es₂ : List RLEvent) (rid : Nat)
    (hq : rid ∈ rids (rlRun (rlInit cap) es₁).queue) :
    lookupKey rid (rlRun (rlStep (rlRun (rlInit cap) es₁) (.timeoutFire rid)) es₂).settled
      = some Outcome.timedOut ∧
    rid ∉ rids (rlRun (rlStep (rlRun (rlInit cap) es₁) (.timeoutFire rid)) es₂).queue ∧
    rid ∉ (rlRun (rlStep (rlRun (rlInit cap) es₁) (.timeoutFire rid)) es₂).dispatched := by
  obtain ⟨hqinv, hdinv, hnd⟩ := rlRun_inv (rlInit cap) es₁ (rlInv_init cap)
  obtain ⟨x, hx, hxr⟩ := (mem_rids rid _).mp hq
  have hnone : lookupKey rid (rlRun (rlInit cap) es₁).settled = none := by
    rw [← hxr]
    exact (hqinv x hx).1
  have hnd2 : rid ∉ (rlRun (rlInit cap) es₁).dispatched := by
    rw [← hxr]
    exact (hqinv x hx).2
  have hstep : rlStep (rlRun (rlInit cap) es₁) (.timeoutFire rid)
      = { rlRun (rlInit cap) es₁ with
          queue := (rlRun (rlInit cap) es₁).queue.filter (fun y => y.rid ≠ rid)
          settled := settle (rlRun (rlInit cap) es₁).settled rid .timedOut } := by
    simp only [rlStep, if_pos hq]
  have h₂ : settledAt (rlStep (rlRun (rlInit cap) es₁) (.timeoutFire rid)) rid
      Outcome.timedOut := by
    rw [hstep]
    refine ⟨settle_lookup_self _ _ _ hnone, ?_, hnd2⟩
    intro hmem
    obtain ⟨y, hy, hyr⟩ := (mem_rids rid _).mp hmem
    have hfilter := List.of_mem_filter hy
    simp only [decide_eq_true_eq] at hfilter
    exact hfilter hyr
  exact settledAt_run _ es₂ rid Outcome.timedOut h₂

def cw7Entry : QEntry := ⟨1, 50, .normal, 0⟩

theorem groq_queue_timeout_enforced_witness :
    (1 : Nat) ∈ rids (rlRun (rlInit 10) [RLEvent.submit cw7Entry false]).queue ∧
    (lookupKey 1 (rlRun (rlStep (rlRun (rlInit 10) [RLEvent.submit cw7Entry false])
        (RLEvent.timeoutFire 1)) [RLEvent.refill (fun _ => false)]).settled
      = some Outcome.timedOut ∧
     (1 : Nat) ∉ rids (rlRun (rlStep (rlRun (rlInit 10) [RLEvent.submit cw7Entry false])
        (RLEvent.timeoutFire 1)) [RLEvent.refill (fun _ => false)]).queue ∧
     (1 : Nat) ∉ (rlRun (rlStep (rlRun (rlInit 10) [RLEvent.submit cw7Entry false])
        (RLEvent.timeoutFire 1)) [RLEvent.refill (fun _ => false)]).dispatched) :=
  ⟨by decide,
   groq_queue_timeout_enforced 10 [RLEvent.submit cw7Entry false]
     [RLEvent.refill (fun _ => false)] 1 (by decide)⟩

end GroqRateLimiter

namespace AdvancedCache

/-- `advancedCache.cleanup`: when more than 400 keys are present, delete the
first 20% of the keys in insertion order (`keys.slice(0, Math.floor(keyCount
* 0.2))`; `Math.floor(keyCount * 0.2)` equals `keyCount * 2 / 10` in exact
arithmetic for these key counts). -/
def cleanup (c : NodeCache) : NodeCache :=
  let keyCount := c.entries.length
  if 400 < keyCount then
    ((c.entries.map Prod.fst).take (keyCount * 2 / 10)).foldl NodeCache.del c
  else c

/-- `set` through the eyes of a caller that ignores the thrown `ECACHEFULL`:
keep the old cache on error. -/
def setOrKeep (c : NodeCache) (k : String) (v : CacheEntry) (ttl now : Nat) : NodeCache :=
  match c.set k v ttl now with
  | .ok c' => c'
  | .error _ => c

theorem foldl_del_entries (ks : List String) (c : NodeCache) :
    (ks.foldl NodeCache.del c).entries
      = ks.foldl (fun l k => l.filter (fun p => p.1 ≠ k)) c.entries := by
  induction ks generalizing c with
  | nil => rfl
  | cons k rest ih => exact ih (c.del k)

theorem foldl_filter_take (l : List (String × NCEntry)) (m : Nat)
    (hnodup : (l.map Prod.fst).Nodup) :
    ((l.map Prod.fst).take m).foldl (fun acc k => acc.filter (fun p => p.1 ≠ k)) l
      = l.drop m := by
  induction l generalizing m with
  | nil => simp
  | cons p rest ih =>
    rcases m with _ | m
    · rfl
    · simp only [List.map_cons, List.nodup_cons] at hnodup
      obtain ⟨hp, hnd⟩ := hnodup
      simp only [List.map_cons, List.take_succ_cons, List.foldl_cons, List.drop_succ_cons]
      have hstep : (p :: rest).filter (fun q => q.1 ≠ p.1) = rest := by
        rw [List.filter_cons]
        simp only [ne_eq, not_true_eq_false, decide_False, Bool.false_eq_true, if_false]
        apply List.filter_eq_self.mpr
        intro q hq
        simp only [ne_eq, decide_eq_true_eq]
        intro hEq
        exact hp (hEq ▸ List.mem_map_of_mem Prod.fst hq)
      rw [hstep]
      exact ih m hnd
def c8Entry (i : Int) : CacheEntry := ⟨JsVal.num i, 0⟩

def c8Cache : NodeCache :=
  setOrKeep (setOrKeep (setOrKeep (setOrKeep (setOrKeep (⟨[], 5⟩ : NodeCache)
    ("k0") (c8Entry 0) 300 0)
    ("k1") (c8Entry 1) 300 0)
    ("k2") (c8Entry 2) 300 0)
    ("k3") (c8Entry 3) 300 0)
    ("k4") (c8Entry 4) 300 0

/-- C8 counterexample: with capacity 5, after five successful inserts the
sixth `set` of a distinct key throws `ECACHEFULL` instead of succeeding from
the caller's perspective, nothing is evicted, and the earliest-inserted key
`k0` is still present afterwards. -/
theorem bounded_cache_counterexample :
    c8Cache.entries.length = 5 ∧
    c8Cache.set ("k5") (c8Entry 5) 300 0 = .error ("ECACHEFULL") ∧
    (lookupKey ("k0") c8Cache.entries).isSome = true ∧
    (setOrKeep c8Cache ("k5") (c8Entry 5) 300 0).entries.length = 5 ∧
    (lookupKey ("k0") (setOrKeep c8Cache ("k5") (c8Entry 5) 300 0).entries).isSome = true :=
  ⟨rfl, rfl, rfl, rfl, rfl⟩

/-- C8 (amended): the entry count never exceeds the maximum, but not through
eviction on `set`: at capacity `set` throws `ECACHEFULL` and stores nothing
(so the earliest-inserted key remains), while a successful `set` keeps the
count within `maxKeys`; the 20%-of-oldest eviction happens only in the
periodic `cleanup` sweep and only when the key count exceeds the hard-coded
threshold 400. -/
theorem bounded_cache_amended (c c' : NodeCache) (k : String) (v : CacheEntry)
    (ttl now : Nat)
    (hnodup : (c.entries.map Prod.fst).Nodup) :
    (c.maxKeys ≤ c.entries.length → c.set k v ttl now = .error ("ECACHEFULL")) ∧
    (c.set k v ttl now = .ok c' → c'.entries.length ≤ c.maxKeys) ∧
    (400 < c.entries.length →
      (cleanup c).entries = c.entries.drop (c.entries.length * 2 / 10)) := by
  refine ⟨?_, ?_, ?_⟩
  · intro hfull
    unfold NodeCache.set
    rw [if_pos hfull]
  · intro hok
    unfold NodeCache.set at hok
    by_cases hfull : c.maxKeys ≤ c.entries.length
    · rw [if_pos hfull] at hok
      cases hok
    · rw [if_neg hfull] at hok
      push_neg at hfull
      by_cases hex : (lookupKey k c.entries).isSome = true
      · rw [if_pos hex] at hok
        cases hok
        simp only [List.length_map]
        omega
      · rw [if_neg hex] at hok
        cases hok
        simp only [List.length_append, List.length_cons, List.length_nil]
        omega
  · intro hbig
    simp only [cleanup]
    rw [if_pos hbig]
    rw [foldl_del_entries, foldl_filter_take _ _ hnodup]

theorem bounded_cache_amended_witness :
    (c8Cache.entries.map Prod.fst).Nodup ∧
    ((c8Cache.maxKeys ≤ c8Cache.entries.length →
        c8Cache.set ("k5") (c8Entry 5) 300 0 = .error ("ECACHEFULL")) ∧
     (c8Cache.set ("k5") (c8Entry 5) 300 0 = .ok c8Cache →
        c8Cache.entries.length ≤ c8Cache.maxKeys) ∧
     (400 < c8Cache.entries.length →
        (cleanup c8Cache).entries
          = c8Cache.entries.drop (c8Cache.entries.length * 2 / 10))) :=
  ⟨by decide,
   bounded_cache_amended c8Cache c8Cache ("k5") (c8Entry 5) 300 0 (by decide)⟩

end AdvancedCache

/-- A commentary job in the Background Worker's queue (`addArticlesToQueue`
item). -/
structure Job where
  articleId : Nat
  priority : Nat
  addedAt : Nat
deriving DecidableEq, Repr

namespace CommentaryWorker

/-- Worker state relevant to `processQueue`. -/
structure WorkerState where
  queue : List Job
  processedToday : Nat
  maxDailyCommentaries : Nat
deriving DecidableEq, Repr

/-- Outcome of one generate-and-save attempt for the shifted job: `ok some`
means commentary was generated and saved, `ok none` means the model returned
no content (the `if (commentary)` guard fails), `err` means the attempt
threw with the given message. -/
inductive JobResult where
  | ok (commentary : Option String)
  | err (msg : String)

/-- The source's transient-error test:
`error.message.includes('Rate limit') || error.message.includes('timeout')`. -/
def isTransient (msg : String) : Bool :=
  strContains msg ("Rate limit") || strContains msg ("timeout")

/-- Stable insertion keeping higher priorities first. -/
def insertDesc (j : Job) : List Job → List Job
  | [] => [j]
  | x :: xs => if x.priority ≤ j.priority then j :: x :: xs else x :: insertDesc j xs

/-- The stable `queue.sort((a, b) => b.priority - a.priority)`: sort
descending by priority, equal priorities keeping their relative order. -/
def sortDesc (l : List Job) : List Job := l.foldr insertDesc []

/-- Sorted descending by priority. -/
def SortedDesc (l : List Job) : Prop :=
  l.Pairwise (fun a b => b.priority ≤ a.priority)

theorem mem_insertDesc (j x : Job) (l : List Job) :
    x ∈ insertDesc j l ↔ x = j ∨ x ∈ l := by
  induction l with
  | nil => simp [insertDesc]
  | cons y ys ih =>
    unfold insertDesc
    split
    · simp
    · simp only [List.mem_cons, ih]
      tauto

theorem insertDesc_sorted (j : Job) (l : List Job) (h : SortedDesc l) :
    SortedDesc (insertDesc j l) := by
  induction l with
  | nil => exact List.pairwise_singleton _ _
  | cons x xs ih =>
    rcases List.pairwise_cons.mp h with ⟨hx, hxs⟩
    unfold insertDesc
    split
    · rename_i hle
      refine List.pairwise_cons.mpr ⟨?_, h⟩
      intro b hb
      rcases List.mem_cons.mp hb with hEq | hmem
      · subst hEq
        exact hle
      · exact le_trans (hx b hmem) hle
    · rename_i hlt
      push_neg at hlt
      refine List.pairwise_cons.mpr ⟨?_, ih hxs⟩
      intro b hb
      rcases (mem_insertDesc j b xs).mp hb with hEq | hmem
      · subst hEq
        exact le_of_lt hlt
      · exact hx b hmem

theorem sortDesc_sorted (l : List Job) : SortedDesc (sortDesc l) := by
  induction l with
  | nil => exact List.Pairwise.nil
  | cons x xs ih => exact insertDesc_sorted x (sortDesc xs) ih

/-- `CommentaryWorker.processQueue`, one drain tick: return unchanged when
the queue is empty or the daily quota is reached; otherwise shift the head
item and attempt it.  Success with content saves it and counts toward the
daily quota; success without content drops the item silently; a transient
failure (message containing `Rate limit` or `timeout`) requeues the item at
priority `max(1, priority − 1)` and re-sorts the queue descending; any other
failure drops the item. -/
def processQueue (w : WorkerState) (result : JobResult) : WorkerState :=
  match w.queue with
  | [] => w
  | item :: rest =>
    if w.maxDailyCommentaries ≤ w.processedToday then w
    else
      match result with
      | .ok (some _) => { w with queue := rest, processedToday := w.processedToday + 1 }
      | .ok none => { w with queue := rest }
      | .err msg =>
        if isTransient msg then
          { w with queue :=
              sortDesc (rest ++ [{ item with priority := max 1 (item.priority - 1) }]) }
        else { w with queue := rest }

def c9Job : Job := ⟨7, 1, 0⟩

/-- C9 counterexample: a job already at priority 1 that fails with a
rate-limit error is requeued with priority still 1 — its priority is not
decremented (`Math.max(1, priority - 1)` floors at 1). -/
theorem worker_priority_floor_counterexample :
    c9Job.priority = 1 ∧
    isTransient ("Rate limit exceeded") = true ∧
    (processQueue ⟨[c9Job], 0, 100⟩ (.err ("Rate limit exceeded"))).queue = [c9Job] := by
  refine ⟨rfl, by decide, rfl⟩

/-- C9 (amended): under the daily quota, a job failing with a rate-limit or
timeout class error is reinserted with priority `max(1, priority − 1)` (a
decrement floored at 1, so a priority-1 job keeps priority 1) and the queue
is re-sorted, remaining sorted descending by priority; a job failing with
any other error is dropped and not requeued. -/
theorem worker_requeue_amended (w : WorkerState) (item : Job) (rest : List Job)
    (msg : String)
    (hqueue : w.queue = item :: rest)
    (hdaily : w.processedToday < w.maxDailyCommentaries) :
    (isTransient msg = true →
      processQueue w (.err msg)
        = { w with queue :=
            sortDesc (rest ++ [{ item with priority := max 1 (item.priority - 1) }]) } ∧
      SortedDesc (processQueue w (.err msg)).queue) ∧
    (isTransient msg = false → processQueue w (.err msg) = { w with queue := rest }) := by
  have hnot : ¬ w.maxDailyCommentaries ≤ w.processedToday := not_le.mpr hdaily
  constructor
  · intro ht
    have hmain : processQueue w (.err msg)
        = { w with queue :=
            sortDesc (rest ++ [{ item with priority := max 1 (item.priority - 1) }]) } := by
      unfold processQueue
      rw [hqueue]
      simp only [if_neg hnot, if_pos ht]
    refine ⟨hmain, ?_⟩
    rw [hmain]
    exact sortDesc_sorted _
  · intro hf
    unfold processQueue
    rw [hqueue]
    simp only [if_neg hnot]
    rw [if_neg (by simp [hf])]

def c9Item : Job := ⟨1, 5, 0⟩

def c9Rest : List Job := [⟨2, 3, 0⟩]

def c9State : WorkerState := ⟨c9Item :: c9Rest, 0, 100⟩

theorem worker_requeue_amended_witness :
    c9State.queue = c9Item :: c9Rest ∧
    c9State.processedToday < c9State.maxDailyCommentaries ∧
    ((isTransient ("timeout of 30000ms exceeded") = true →
        processQueue c9State (.err ("timeout of 30000ms exceeded"))
          = { c9State with
              queue := sortDesc (c9Rest
                ++ [{ c9Item with priority := max 1 (c9Item.priority - 1) }]) } ∧
        SortedDesc (processQueue c9State (.err ("timeout of 30000ms exceeded"))).queue) ∧
     (isTransient ("timeout of 30000ms exceeded") = false →
        processQueue c9State (.err ("timeout of 30000ms exceeded"))
          = { c9State with queue := c9Rest })) :=
  ⟨rfl, by decide,
   worker_requeue_amended c9State c9Item c9Rest ("timeout of 30000ms exceeded")
     rfl (by decide)⟩

end CommentaryWorker

end TestBackend
